/-
Verification of `plugins/web3/skills/etherscan-verification/scripts/extract_constructor_args.py`.

The script has two pure functions, `version_to_pattern` and
`extract_constructor_args`, and a command entry point `main`.  We embed them
here over Lean strings (Python `str` becomes `String`/`List Char`; the ASCII
fragment of Python's `str.lower`, `str.strip` and `int` is modelled, which is
the domain the script operates on).  Python's exception on a bad version
string becomes `Except`, and the `-1` sentinel of `str.find` becomes
`Option Nat`.  File access in `main` is modelled by an oracle
`fs : String → Option String` giving the contents of existing files.
-/
import Mathlib

namespace ExtractConstructorArgs

/-- The whitespace characters removed by Python's `str.strip()` (ASCII part):
space, tab, newline, carriage return, vertical tab, form feed. -/
def pyIsSpace (c : Char) : Bool :=
  decide (c.toNat = 32 ∨ c.toNat = 9 ∨ c.toNat = 10 ∨ c.toNat = 13 ∨
    c.toNat = 11 ∨ c.toNat = 12)

/-- Python's `str.lower()` on a single character (ASCII part): `A`–`Z` map to
`a`–`z`, everything else is unchanged. -/
def pyToLower (c : Char) : Char :=
  if 65 ≤ c.toNat ∧ c.toNat ≤ 90 then Char.ofNat (c.toNat + 32) else c

/-- Python's `str.lower()` (ASCII part). -/
def pyLower (l : List Char) : List Char :=
  l.map pyToLower

/-- Python's `str.strip()`: drop whitespace from both ends. -/
def pyStrip (l : List Char) : List Char :=
  ((l.dropWhile pyIsSpace).reverse.dropWhile pyIsSpace).reverse

/-- Python's `haystack.find(needle)`, returning the least index at which
`n` occurs in the haystack (`none` models the `-1` sentinel). -/
def findSub (n : List Char) : List Char → Option Nat
  | [] => if n.isPrefixOf ([] : List Char) then some 0 else none
  | c :: t =>
    if n.isPrefixOf (c :: t) then some 0
    else (findSub n t).map (fun k => k + 1)

/-- State machine for the digit part accepted by Python's `int(·)`:
digits with single underscores strictly between digits.  The flag records
whether the next character is required to be a digit. -/
def pyDigitsAux : Bool → List Char → Bool
  | mustDigit, [] => !mustDigit
  | mustDigit, c :: t =>
    if c.isDigit then pyDigitsAux false t
    else if c == '_' && !mustDigit then pyDigitsAux true t
    else false

/-- Numeric value of a digit run, ignoring underscores. -/
def pyDigitsVal (l : List Char) : Nat :=
  l.foldl (fun acc c => if c == '_' then acc else acc * 10 + (c.toNat - 48)) 0

/-- Python's `int(s)` (base 10, ASCII digits): strip whitespace, optional
sign, then a non-empty digit run; `none` models the `ValueError`. -/
def pyInt (s : String) : Option Int :=
  match pyStrip s.data with
  | '+' :: t => if pyDigitsAux true t then some (Int.ofNat (pyDigitsVal t)) else none
  | '-' :: t => if pyDigitsAux true t then some (-(Int.ofNat (pyDigitsVal t))) else none
  | t => if pyDigitsAux true t then some (Int.ofNat (pyDigitsVal t)) else none

instance {ε α : Type} [DecidableEq ε] [DecidableEq α] : DecidableEq (Except ε α) := fun a b =>
  match a, b with
  | .error e, .error f =>
    if h : e = f then isTrue (by rw [h]) else isFalse (fun hh => by cases hh; exact h rfl)
  | .error _, .ok _ => isFalse (fun hh => by cases hh)
  | .ok _, .error _ => isFalse (fun hh => by cases hh)
  | .ok x, .ok y =>
    if h : x = y then isTrue (by rw [h]) else isFalse (fun hh => by cases hh; exact h rfl)

/-- Python's `s.split(".")`: split on every dot, keeping empty parts
(`"".split(".") == [""]`, `"..".split(".") == ["", "", ""]`). -/
def splitOnDot : List Char → List (List Char)
  | [] => [[]]
  | c :: t =>
    if c = '.' then [] :: splitOnDot t
    else
      match splitOnDot t with
      | [] => [[c]]
      | h :: rt => (c :: h) :: rt

/-- Python's format spec `{n:02x}`: lowercase hex, zero-padded to total
width 2 (the sign, if any, counts toward the width). -/
def py02x (n : Int) : String :=
  let ds := Nat.toDigits 16 n.natAbs
  if n < 0 then String.mk ('-' :: (List.replicate (1 - ds.length) '0' ++ ds))
  else String.mk (List.replicate (2 - ds.length) '0' ++ ds)

/-- `version_to_pattern` (lines 21–28 of the script): split the version on
`"."`, require exactly three parts, parse each as an integer (in the order
Python evaluates them), and build
`f"64736f6c634300{minor:02x}{patch:02x}0033"`. -/
def version_to_pattern (version : String) : Except String String :=
  match (splitOnDot version.data).map String.mk with
  | [p0, p1, p2] =>
    match pyInt p0 with
    | none => Except.error ("invalid literal for int() with base 10: " ++ p0)
    | some _ =>
      match pyInt p1 with
      | none => Except.error ("invalid literal for int() with base 10: " ++ p1)
      | some minor =>
        match pyInt p2 with
        | none => Except.error ("invalid literal for int() with base 10: " ++ p2)
        | some patch =>
          Except.ok ("64736f6c634300" ++ py02x minor ++ py02x patch ++ "0033")
  | _ => Except.error ("Invalid version format: " ++ version)

/-- Rendering of one byte the way the spec describes it — "rendered as
exactly two lowercase hex digits": high nibble then low nibble.  Stated from
the spec's words, to compare against the code's `{n:02x}` formatting. -/
def specHexDigit (n : Nat) : Char :=
  if n < 10 then Char.ofNat (48 + n) else Char.ofNat (87 + n)

/-- Two lowercase hex digits for a byte value, per the spec's words. -/
def specHex2 (n : Nat) : String :=
  String.mk [specHexDigit (n / 16), specHexDigit (n % 16)]

/-- Lines 33–36 of `extract_constructor_args`: `data.strip().lower()`, then
removal of a leading `"0x"`. -/
def pyNorm (data : String) : List Char :=
  let d := pyLower (pyStrip data.data)
  if ['0', 'x'].isPrefixOf d then d.drop 2 else d

/-- `extract_constructor_args` (lines 31–45 of the script): normalize the
blob, search for the lowercased pattern, and return everything after its
first occurrence prefixed with `"0x"`; `none` models Python's `None`. -/
def extract_constructor_args (data pattern : String) : Option String :=
  let d := pyNorm data
  match findSub (pyLower pattern.data) d with
  | none => none
  | some idx =>
    let args_start := idx + pattern.length
    if args_start ≥ d.length then none
    else some ("0x" ++ String.mk (d.drop args_start))

/-- `s` occurs in `l` at index `i` (with the occurrence lying inside `l`). -/
def occursAt (l s : List Char) (i : Nat) : Prop :=
  i + s.length ≤ l.length ∧ s.isPrefixOf (l.drop i) = true

instance (l s : List Char) (i : Nat) : Decidable (occursAt l s i) :=
  inferInstanceAs (Decidable (_ ∧ _))

/-- Two character lists that differ only in letter case: pointwise, their
images under `pyToLower` agree. -/
abbrev CaseEquiv (l1 l2 : List Char) : Prop :=
  List.Forall₂ (fun c1 c2 => pyToLower c1 = pyToLower c2) l1 l2

/-- Input resolution in `main` (lines 59–64): an existing file's contents,
otherwise the argument itself as a literal blob. -/
def resolveInput (fs : String → Option String) (input_arg : String) : String :=
  match fs input_arg with
  | some contents => contents
  | none => input_arg

/-- The usage text printed by `main`, one entry per `print` call. -/
def usageLines : List String :=
  ["Usage: extract_constructor_args.py <initcode_file_or_hex> <solc_version>",
   "\nExamples:",
   "  extract_constructor_args.py /tmp/initcode.txt 0.8.29",
   "  extract_constructor_args.py 0x608060405234801... 0.8.28",
   "\nGet solc version from foundry.toml: grep solc foundry.toml"]

/-- The diagnostic of line 73: `f"Pattern {pattern} not found in initCode"`. -/
def notFoundMsg (pattern : String) : String :=
  "Pattern " ++ pattern ++ " not found in initCode"

/-- Observable outcome of one run of the script: the lines printed to
standard output, the lines printed to standard error, and the exit code. -/
structure MainResult where
  stdoutLines : List String
  stderrLines : List String
  exitCode : Nat
deriving DecidableEq

/-- `main` (lines 48–75): `sys.argv` is `argv` (program name included), the
filesystem is the oracle `fs`.  An uncaught `ValueError` from
`version_to_pattern` is modelled as its message on standard error with exit
code 1, which is CPython's behavior for an uncaught exception (the traceback
text around the message is not modelled). -/
def main (argv : List String) (fs : String → Option String) : MainResult :=
  if argv.length < 3 then
    ⟨usageLines, [], 1⟩
  else
    let data := resolveInput fs (argv.getD 1 "")
    match version_to_pattern (argv.getD 2 "") with
    | Except.error msg => ⟨[], [msg], 1⟩
    | Except.ok pattern =>
      match extract_constructor_args data pattern with
      | some args =>
        if args = "" then ⟨[], [notFoundMsg pattern], 1⟩
        else ⟨[args], [], 0⟩
      | none => ⟨[], [notFoundMsg pattern], 1⟩

/-! ### Helper lemmas about the substring search -/

theorem isPrefixOf_length_le : ∀ (s t : List Char), s.isPrefixOf t = true → s.length ≤ t.length
  | [], _, _ => Nat.zero_le _
  | _ :: _, [], h => by simp [List.isPrefixOf] at h
  | _ :: s, _ :: t, h => by
    simp only [List.isPrefixOf, Bool.and_eq_true] at h
    exact Nat.succ_le_succ (isPrefixOf_length_le s t h.2)

theorem findSub_le_length (n : List Char) :
    ∀ (l : List Char) (i : Nat), findSub n l = some i → i ≤ l.length := by
  intro l
  induction l with
  | nil =>
    intro i h
    simp only [findSub] at h
    split at h
    · simp only [Option.some.injEq] at h
      omega
    · cases h
  | cons c t ih =>
    intro i h
    simp only [findSub] at h
    split at h
    · simp only [Option.some.injEq] at h
      omega
    · simp only [Option.map_eq_some'] at h
      obtain ⟨k, hk, rfl⟩ := h
      exact Nat.succ_le_succ (ih k hk)

theorem findSub_eq_none_iff (n l : List Char) :
    findSub n l = none ↔ ∀ i, n.isPrefixOf (l.drop i) = false := by
  induction l with
  | nil =>
    cases hp : n.isPrefixOf ([] : List Char) with
    | true => simp [findSub, hp]
    | false => simp [findSub, hp]
  | cons c t ih =>
    cases hp : n.isPrefixOf (c :: t) with
    | true =>
      simp only [findSub, hp, if_true]
      constructor
      · intro hh; cases hh
      · intro hall
        have h0 := hall 0
        rw [List.drop_zero, hp] at h0
        cases h0
    | false =>
      simp only [findSub, hp, Bool.false_eq_true, if_false, Option.map_eq_none']
      constructor
      · intro hh i
        cases i with
        | zero => rw [List.drop_zero]; exact hp
        | succ i => rw [List.drop_succ_cons]; exact (ih.mp hh) i
      · intro hall
        refine ih.mpr (fun i => ?_)
        have := hall (i + 1)
        rwa [List.drop_succ_cons] at this

theorem findSub_eq_some_iff (n l : List Char) (i : Nat) :
    findSub n l = some i ↔
      (n.isPrefixOf (l.drop i) = true ∧ ∀ j, j < i → n.isPrefixOf (l.drop j) = false) := by
  induction l generalizing i with
  | nil =>
    simp only [findSub, List.drop_nil]
    constructor
    · intro hh
      split at hh
      · next hp =>
        simp only [Option.some.injEq] at hh
        subst hh
        exact ⟨hp, fun j hj => by omega⟩
      · cases hh
    · intro ⟨hpre, hall⟩
      have hi : i = 0 := by
        by_contra hne
        exact Bool.noConfusion (hpre.symm.trans (hall 0 (by omega)))
      subst hi
      rw [if_pos hpre]
  | cons c t ih =>
    constructor
    · intro hh
      simp only [findSub] at hh
      split at hh
      · next hp =>
        simp only [Option.some.injEq] at hh
        subst hh
        exact ⟨by rw [List.drop_zero]; exact hp, fun j hj => by omega⟩
      · next hp =>
        simp only [Option.map_eq_some'] at hh
        obtain ⟨k, hk, rfl⟩ := hh
        have hc := (ih k).mp hk
        refine ⟨by rw [List.drop_succ_cons]; exact hc.1, fun j hj => ?_⟩
        cases j with
        | zero =>
          rw [List.drop_zero]
          cases hb : n.isPrefixOf (c :: t) with
          | false => rfl
          | true => exact absurd hb hp
        | succ j =>
          rw [List.drop_succ_cons]
          exact hc.2 j (by omega)
    · intro ⟨hpre, hall⟩
      simp only [findSub]
      by_cases hp : n.isPrefixOf (c :: t) = true
      · rw [if_pos hp]
        have hi : i = 0 := by
          by_contra hne
          have h0 := hall 0 (by omega)
          rw [List.drop_zero] at h0
          exact Bool.noConfusion (hp.symm.trans h0)
        subst hi
        rfl
      · rw [if_neg hp]
        cases i with
        | zero =>
          rw [List.drop_zero] at hpre
          exact absurd hpre hp
        | succ i =>
          simp only [Option.map_eq_some']
          refine ⟨i, (ih i).mpr ⟨?_, ?_⟩, rfl⟩
          · rwa [List.drop_succ_cons] at hpre
          · intro j hj
            have := hall (j + 1) (by omega)
            rwa [List.drop_succ_cons] at this

/-! ### Occurrences and the search's minimality -/

theorem occursAt_bound {l s : List Char} {i : Nat} (h : occursAt l s i) :
    i + s.length ≤ l.length := h.1

theorem occursAt_of_isPrefixOf_drop {l s : List Char} {i : Nat} (hi : i ≤ l.length)
    (hp : s.isPrefixOf (l.drop i) = true) : occursAt l s i := by
  have hlen := isPrefixOf_length_le s (l.drop i) hp
  rw [List.length_drop] at hlen
  exact ⟨by omega, hp⟩

theorem findSub_some_spec {s l : List Char} {i : Nat} (hf : findSub s l = some i) :
    occursAt l s i ∧ ∀ k, occursAt l s k → i ≤ k := by
  have hc := (findSub_eq_some_iff s l i).mp hf
  have hle := findSub_le_length s l i hf
  refine ⟨occursAt_of_isPrefixOf_drop hle hc.1, fun k hk => ?_⟩
  by_contra hik
  push_neg at hik
  exact Bool.noConfusion (hk.2.symm.trans (hc.2 k hik))

theorem findSub_eq_some_of_least {s l : List Char} {i : Nat}
    (hocc : occursAt l s i) (hmin : ∀ k, occursAt l s k → i ≤ k) :
    findSub s l = some i := by
  cases hf : findSub s l with
  | none =>
    have := (findSub_eq_none_iff s l).mp hf i
    exact Bool.noConfusion (hocc.2.symm.trans this)
  | some k =>
    have hk := findSub_some_spec hf
    have h1 := hmin k hk.1
    have h2 := hk.2 i hocc
    rw [Nat.le_antisymm h2 h1]

theorem findSub_eq_none_of_no_occ {s l : List Char}
    (h : ∀ i, ¬ occursAt l s i) : findSub s l = none := by
  cases hf : findSub s l with
  | none => rfl
  | some k => exact absurd (findSub_some_spec hf).1 (h k)

/-! ### Basic facts about the embedded string functions -/

theorem pyLower_length (l : List Char) : (pyLower l).length = l.length := by
  simp [pyLower]

theorem string_length_eq_data (s : String) : s.length = s.data.length := rfl

theorem append0x_ne_empty (x : String) : "0x" ++ x ≠ "" := by
  intro h
  have hlen := congrArg String.length h
  rw [String.length_append] at hlen
  have h2 : ("0x" : String).length = 2 := rfl
  have h0 : ("" : String).length = 0 := rfl
  omega

theorem extract_eq_of_pyNorm_eq {d1 d2 : String} (pattern : String)
    (h : pyNorm d1 = pyNorm d2) :
    extract_constructor_args d1 pattern = extract_constructor_args d2 pattern := by
  unfold extract_constructor_args
  rw [h]

theorem extract_some_ne_empty {data pattern s : String}
    (h : extract_constructor_args data pattern = some s) : s ≠ "" := by
  simp only [extract_constructor_args] at h
  split at h
  · cases h
  · split at h
    · cases h
    · simp only [Option.some.injEq] at h
      rw [← h]
      exact append0x_ne_empty _

/-! ### Facts about the pattern builder -/

set_option maxRecDepth 10000 in
theorem py02x_eq_specHex2 : ∀ n : Nat, n < 256 → py02x (Int.ofNat n) = specHex2 n := by decide

/-! ### Claim C3 -/

/-- C3: `version_to_pattern` applied to `"0.8.29"` returns exactly the
pattern `"64736f6c634300081d0033"`. -/
theorem C3_example_pattern :
    version_to_pattern "0.8.29" = Except.ok "64736f6c634300081d0033" := by decide

/-! ### Claim C2 -/

/-- C2 counterexample: for version `"0.8.29"` (minor 8 and patch 29, both in
[0,255]) the built pattern is not
`"64736f6c6343" ++ "08" ++ "1d" ++ "0033"` as the claim describes, and its
length is 22, not 26: the code hardcodes a `"00"` major byte after the
literal `"64736f6c6343"`. -/
theorem C2_counterexample :
    version_to_pattern "0.8.29" = Except.ok "64736f6c634300081d0033" ∧
    "64736f6c634300081d0033" ≠ "64736f6c6343" ++ "08" ++ "1d" ++ "0033" ∧
    ("64736f6c634300081d0033" : String).length = 22 ∧
    ¬ ("64736f6c634300081d0033" : String).length = 26 := by decide

/-- C2 (amended): for every version string whose three dot-separated parts
parse as integers with minor and patch in [0,255], `version_to_pattern`
returns the fixed literal prefix `"64736f6c634300"` (the metadata tag bytes
plus a hardcoded `00` major byte) followed by the minor byte and then the
patch byte, each rendered as exactly two lowercase hex digits, followed by
the fixed suffix `"0033"`, and the returned string has length exactly 22. -/
theorem C2_pattern_shape (v p0 p1 p2 : String) (minor patch : Int)
    (hsplit : (splitOnDot v.data).map String.mk = [p0, p1, p2])
    (h0 : ∃ n, pyInt p0 = some n)
    (h1 : pyInt p1 = some minor) (h2 : pyInt p2 = some patch)
    (hm0 : 0 ≤ minor) (hm1 : minor ≤ 255) (hq0 : 0 ≤ patch) (hq1 : patch ≤ 255) :
    version_to_pattern v =
      Except.ok ("64736f6c634300" ++ specHex2 minor.toNat ++ specHex2 patch.toNat ++ "0033") ∧
    (specHex2 minor.toNat).length = 2 ∧ (specHex2 patch.toNat).length = 2 ∧
    ("64736f6c634300" ++ specHex2 minor.toNat ++ specHex2 patch.toNat ++ "0033").length = 22 := by
  obtain ⟨n0, h0⟩ := h0
  have hmi : py02x minor = specHex2 minor.toNat := by
    have he : minor = Int.ofNat minor.toNat := (Int.toNat_of_nonneg hm0).symm
    calc py02x minor = py02x (Int.ofNat minor.toNat) := by rw [← he]
    _ = specHex2 minor.toNat := py02x_eq_specHex2 _ (by omega)
  have hpa : py02x patch = specHex2 patch.toNat := by
    have he : patch = Int.ofNat patch.toNat := (Int.toNat_of_nonneg hq0).symm
    calc py02x patch = py02x (Int.ofNat patch.toNat) := by rw [← he]
    _ = specHex2 patch.toNat := py02x_eq_specHex2 _ (by omega)
  have lm : (specHex2 minor.toNat).length = 2 := rfl
  have lp : (specHex2 patch.toNat).length = 2 := rfl
  refine ⟨?_, lm, lp, ?_⟩
  · simp only [version_to_pattern, hsplit, h0, h1, h2, hmi, hpa]
  · simp only [String.length_append, lm, lp]
    decide

/-- C2 witness: instantiating the amended shape theorem at version
`"0.8.29"`. -/
theorem C2_witness :
    version_to_pattern "0.8.29" =
      Except.ok ("64736f6c634300" ++ specHex2 (8 : Int).toNat ++ specHex2 (29 : Int).toNat ++ "0033") ∧
    (specHex2 (8 : Int).toNat).length = 2 ∧ (specHex2 (29 : Int).toNat).length = 2 ∧
    ("64736f6c634300" ++ specHex2 (8 : Int).toNat ++ specHex2 (29 : Int).toNat ++ "0033").length = 22 :=
  C2_pattern_shape "0.8.29" "0" "8" "29" 8 29 (by decide) ⟨0, by decide⟩ (by decide) (by decide)
    (by decide) (by decide) (by decide) (by decide)

/-! ### Claim C6 -/

/-- C6: the major version number is read but not included in the pattern:
two versions that differ only in their (parseable) major part, with
identical minor and patch parts, produce the same pattern. -/
theorem C6_major_ignored (v1 v2 a1 a2 b c : String)
    (h1 : (splitOnDot v1.data).map String.mk = [a1, b, c])
    (h2 : (splitOnDot v2.data).map String.mk = [a2, b, c])
    (ha1 : ∃ n, pyInt a1 = some n) (ha2 : ∃ n, pyInt a2 = some n)
    (hb : ∃ n, pyInt b = some n) (hc : ∃ n, pyInt c = some n) :
    version_to_pattern v1 = version_to_pattern v2 := by
  obtain ⟨n1, ha1⟩ := ha1
  obtain ⟨n2, ha2⟩ := ha2
  obtain ⟨nb, hb⟩ := hb
  obtain ⟨nc, hc⟩ := hc
  simp only [version_to_pattern, h1, h2, ha1, ha2, hb, hc]

/-- C6 witness: versions `"1.8.29"` and `"9.8.29"` produce the same
pattern. -/
theorem C6_witness :
    version_to_pattern "1.8.29" = version_to_pattern "9.8.29" :=
  C6_major_ignored "1.8.29" "9.8.29" "1" "9" "8" "29" (by decide) (by decide)
    ⟨1, by decide⟩ ⟨9, by decide⟩ ⟨8, by decide⟩ ⟨29, by decide⟩

/-! ### Claim C4 -/

/-- C4: `version_to_pattern` fails exactly when the version string does not
split on `"."` into three parts or some part does not parse as an integer;
in particular `"1.2"` fails, and every success parsed all three parts. -/
theorem C4_error_iff :
    (∀ v : String, (∃ e, version_to_pattern v = Except.error e) ↔
      (((splitOnDot v.data).map String.mk).length ≠ 3 ∨
        ∃ p ∈ (splitOnDot v.data).map String.mk, pyInt p = none)) ∧
    (∃ e, version_to_pattern "1.2" = Except.error e) ∧
    (∀ v s, version_to_pattern v = Except.ok s →
      ∃ p0 p1 p2 n0 n1 n2, (splitOnDot v.data).map String.mk = [p0, p1, p2] ∧
        pyInt p0 = some n0 ∧ pyInt p1 = some n1 ∧ pyInt p2 = some n2) := by
  have key : ∀ v : String,
      (∃ e, version_to_pattern v = Except.error e) ↔
      (((splitOnDot v.data).map String.mk).length ≠ 3 ∨
        ∃ p ∈ (splitOnDot v.data).map String.mk, pyInt p = none) := by
    intro v
    rcases hps : (splitOnDot v.data).map String.mk with _ | ⟨p0, _ | ⟨p1, _ | ⟨p2, _ | ⟨p3, rest⟩⟩⟩⟩
    · exact ⟨fun _ => Or.inl (by simp),
        fun _ => ⟨"Invalid version format: " ++ v, by simp only [version_to_pattern, hps]⟩⟩
    · exact ⟨fun _ => Or.inl (by simp),
        fun _ => ⟨"Invalid version format: " ++ v, by simp only [version_to_pattern, hps]⟩⟩
    · exact ⟨fun _ => Or.inl (by simp),
        fun _ => ⟨"Invalid version format: " ++ v, by simp only [version_to_pattern, hps]⟩⟩
    · cases hI0 : pyInt p0 with
      | none =>
        exact ⟨fun _ => Or.inr ⟨p0, by simp, hI0⟩,
          fun _ => ⟨"invalid literal for int() with base 10: " ++ p0,
            by simp only [version_to_pattern, hps, hI0]⟩⟩
      | some n0 =>
        cases hI1 : pyInt p1 with
        | none =>
          exact ⟨fun _ => Or.inr ⟨p1, by simp, hI1⟩,
            fun _ => ⟨"invalid literal for int() with base 10: " ++ p1,
              by simp only [version_to_pattern, hps, hI0, hI1]⟩⟩
        | some n1 =>
          cases hI2 : pyInt p2 with
          | none =>
            exact ⟨fun _ => Or.inr ⟨p2, by simp, hI2⟩,
              fun _ => ⟨"invalid literal for int() with base 10: " ++ p2,
                by simp only [version_to_pattern, hps, hI0, hI1, hI2]⟩⟩
          | some n2 =>
            constructor
            · intro ⟨e, he⟩
              simp only [version_to_pattern, hps, hI0, hI1, hI2] at he
              cases he
            · intro hrhs
              rcases hrhs with hlen | ⟨p, hmem, hnone⟩
              · simp at hlen
              · simp only [List.mem_cons, List.not_mem_nil, or_false] at hmem
                rcases hmem with rfl | rfl | rfl
                · rw [hI0] at hnone; cases hnone
                · rw [hI1] at hnone; cases hnone
                · rw [hI2] at hnone; cases hnone
    · exact ⟨fun _ => Or.inl (by simp),
        fun _ => ⟨"Invalid version format: " ++ v, by simp only [version_to_pattern, hps]⟩⟩
  refine ⟨key, ⟨"Invalid version format: 1.2", by decide⟩, ?_⟩
  intro v s hok
  rcases hps : (splitOnDot v.data).map String.mk with _ | ⟨p0, _ | ⟨p1, _ | ⟨p2, _ | ⟨p3, rest⟩⟩⟩⟩
  · simp only [version_to_pattern, hps] at hok
    cases hok
  · simp only [version_to_pattern, hps] at hok
    cases hok
  · simp only [version_to_pattern, hps] at hok
    cases hok
  · cases hI0 : pyInt p0 with
    | none =>
      simp only [version_to_pattern, hps, hI0] at hok
      cases hok
    | some n0 =>
      cases hI1 : pyInt p1 with
      | none =>
        simp only [version_to_pattern, hps, hI0, hI1] at hok
        cases hok
      | some n1 =>
        cases hI2 : pyInt p2 with
        | none =>
          simp only [version_to_pattern, hps, hI0, hI1, hI2] at hok
          cases hok
        | some n2 => exact ⟨p0, p1, p2, n0, n1, n2, rfl, hI0, hI1, hI2⟩
  · simp only [version_to_pattern, hps] at hok
    cases hok

/-- C4 witness: the two-part version `"1.2"` raises an invalid-format
error. -/
theorem C4_witness : ∃ e, version_to_pattern "1.2" = Except.error e :=
  C4_error_iff.2.1

/-! ### Claim C1 -/

/-- C1: extraction returns `none` exactly when the lowercased pattern does
not occur in the normalized blob, or the offset immediately after its first
(least-index) occurrence is at or beyond the normalized blob's length;
otherwise it returns the substring of the normalized blob from that offset
to the end, prefixed with `"0x"`.  The embedded function is total, so no
input can crash it. -/
theorem C1_none_iff (data pattern : String) :
    (extract_constructor_args data pattern = none ↔
      ((∀ i, ¬ occursAt (pyNorm data) (pyLower pattern.data) i) ∨
        (∃ i, occursAt (pyNorm data) (pyLower pattern.data) i ∧
          (∀ k, occursAt (pyNorm data) (pyLower pattern.data) k → i ≤ k) ∧
          (pyNorm data).length ≤ i + pattern.length))) ∧
    (∀ i, occursAt (pyNorm data) (pyLower pattern.data) i →
      (∀ k, occursAt (pyNorm data) (pyLower pattern.data) k → i ≤ k) →
      i + pattern.length < (pyNorm data).length →
      extract_constructor_args data pattern =
        some ("0x" ++ String.mk ((pyNorm data).drop (i + pattern.length)))) := by
  constructor
  · constructor
    · intro hnone
      cases hf : findSub (pyLower pattern.data) (pyNorm data) with
      | none =>
        refine Or.inl (fun i hocc => ?_)
        have := (findSub_eq_none_iff _ _).mp hf i
        exact Bool.noConfusion (hocc.2.symm.trans this)
      | some idx =>
        have hspec := findSub_some_spec hf
        simp only [extract_constructor_args, hf] at hnone
        by_cases hge : idx + pattern.length ≥ (pyNorm data).length
        · exact Or.inr ⟨idx, hspec.1, hspec.2, hge⟩
        · rw [if_neg hge] at hnone
          cases hnone
    · intro hcases
      rcases hcases with hno | ⟨i, hocc, hmin, hge⟩
      · have hf : findSub (pyLower pattern.data) (pyNorm data) = none :=
          findSub_eq_none_of_no_occ hno
        simp only [extract_constructor_args, hf]
      · have hf : findSub (pyLower pattern.data) (pyNorm data) = some i :=
          findSub_eq_some_of_least hocc hmin
        simp only [extract_constructor_args, hf]
        rw [if_pos hge]
  · intro i hocc hmin hlt
    have hf : findSub (pyLower pattern.data) (pyNorm data) = some i :=
      findSub_eq_some_of_least hocc hmin
    simp only [extract_constructor_args, hf]
    rw [if_neg (by omega)]

/-- C1 witness: in blob `"ab"` the pattern `"a"` occurs first at index 0 and
extraction returns the rest of the blob after it, prefixed `"0x"`. -/
theorem C1_witness :
    occursAt (pyNorm "ab") (pyLower ("a" : String).data) 0 ∧
    extract_constructor_args "ab" "a" =
      some ("0x" ++ String.mk ((pyNorm "ab").drop (0 + ("a" : String).length))) :=
  ⟨by decide, (C1_none_iff "ab" "a").2 0 (by decide) (fun k _ => Nat.zero_le k) (by decide)⟩

/-! ### Claim C10 -/

/-- C10: when the lowercased pattern occurs more than once in the normalized
blob, extraction uses the first (leftmost) occurrence: the result is `"0x"`
followed by everything after the end of that first occurrence. -/
theorem C10_first_occurrence (data pattern : String) (i j : Nat)
    (hi : occursAt (pyNorm data) (pyLower pattern.data) i)
    (hj : occursAt (pyNorm data) (pyLower pattern.data) j)
    (hmin : ∀ k, occursAt (pyNorm data) (pyLower pattern.data) k → i ≤ k)
    (hij : i < j) :
    extract_constructor_args data pattern =
      some ("0x" ++ String.mk ((pyNorm data).drop (i + pattern.length))) := by
  have hs : (pyLower pattern.data).length = pattern.length := List.length_map _ _
  have hlt : i + pattern.length < (pyNorm data).length := by
    have hbj := hj.1
    rw [hs] at hbj
    omega
  have hf : findSub (pyLower pattern.data) (pyNorm data) = some i :=
    findSub_eq_some_of_least hi hmin
  simp only [extract_constructor_args, hf]
  rw [if_neg (by omega)]

/-- C10 witness: in `"abzab"` the pattern `"ab"` occurs at indices 0 and 3;
extraction returns everything after the first occurrence, and the returned
tail still contains the later occurrence of the pattern. -/
theorem C10_witness :
    extract_constructor_args "abzab" "ab" =
      some ("0x" ++ String.mk ((pyNorm "abzab").drop (0 + ("ab" : String).length))) ∧
    (findSub (pyLower ("ab" : String).data)
      ((pyNorm "abzab").drop (0 + ("ab" : String).length))).isSome = true :=
  ⟨C10_first_occurrence "abzab" "ab" 0 3 (by decide) (by decide)
      (fun k _ => Nat.zero_le k) (by decide),
    by decide⟩

/-! ### Claim C7 -/

/-- C7: whenever extraction finds a result, the entry point prints the
`0x`-prefixed argument string to standard output and exits with status 0. -/
theorem C7_found_prints (argv : List String) (fs : String → Option String) (pat args : String)
    (hlen : 3 ≤ argv.length)
    (hver : version_to_pattern (argv.getD 2 "") = Except.ok pat)
    (hex : extract_constructor_args (resolveInput fs (argv.getD 1 "")) pat = some args) :
    main argv fs = ⟨[args], [], 0⟩ := by
  have hne : args ≠ "" := extract_some_ne_empty hex
  simp only [main]
  rw [if_neg (Nat.not_lt.mpr hlen)]
  simp only [hver, hex]
  rw [if_neg hne]

/-- C7 witness: the spec's end-to-end example — a file containing
`6080604064736f6c634300081d00330011` and version `0.8.29` make the program
print `0x0011` and exit 0. -/
theorem C7_witness :
    main ["extract_constructor_args.py", "/tmp/initcode.txt", "0.8.29"]
      (fun p => if p = "/tmp/initcode.txt" then some "6080604064736f6c634300081d00330011" else none)
      = ⟨["0x0011"], [], 0⟩ :=
  C7_found_prints _ _ "64736f6c634300081d0033" "0x0011" (by decide) (by decide) (by decide)

/-! ### Claim C8 -/

/-- C8: whenever extraction returns the not-found signal, the entry point
writes a diagnostic containing the searched pattern to standard error,
prints nothing to standard output, and exits with status 1. -/
theorem C8_not_found_reports (argv : List String) (fs : String → Option String) (pat : String)
    (hlen : 3 ≤ argv.length)
    (hver : version_to_pattern (argv.getD 2 "") = Except.ok pat)
    (hex : extract_constructor_args (resolveInput fs (argv.getD 1 "")) pat = none) :
    main argv fs = ⟨[], [notFoundMsg pat], 1⟩ ∧
    ∃ l r, notFoundMsg pat = l ++ pat ++ r := by
  constructor
  · simp only [main]
    rw [if_neg (Nat.not_lt.mpr hlen)]
    simp only [hver, hex]
  · exact ⟨"Pattern ", " not found in initCode", rfl⟩

/-- C8 witness: the literal blob `"deadbeef"` has no match for the pattern
of version `0.8.29`; the program exits 1 with a standard-error message
containing `64736f6c634300081d0033` and prints nothing to standard
output. -/
theorem C8_witness :
    main ["extract_constructor_args.py", "deadbeef", "0.8.29"] (fun _ => none)
      = ⟨[], [notFoundMsg "64736f6c634300081d0033"], 1⟩ ∧
    ∃ l r, notFoundMsg "64736f6c634300081d0033" = l ++ "64736f6c634300081d0033" ++ r :=
  C8_not_found_reports _ _ "64736f6c634300081d0033" (by decide) (by decide) (by decide)

/-! ### Claim C9 -/

/-- C9 counterexample: an invocation with three positional arguments (four
entries in `sys.argv`, so "not exactly two") does not print usage and does
not exit 1: the extra argument is ignored, extraction runs, and the program
prints the extracted value with exit status 0. -/
theorem C9_counterexample :
    main ["extract_constructor_args.py", "6080604064736f6c634300081d00330011", "0.8.29", "extra"]
        (fun _ => none) = ⟨["0x0011"], [], 0⟩ ∧
    (["extract_constructor_args.py", "6080604064736f6c634300081d00330011", "0.8.29", "extra"]
        : List String).length ≠ 3 := by
  constructor
  · decide
  · decide

/-- C9 (amended): the entry point prints usage to standard output and exits
with status 1 exactly for invocations with fewer than two positional
arguments, performing no extraction; arguments beyond the first two are
ignored and do not change the outcome. -/
theorem C9_usage :
    (∀ (argv : List String) (fs : String → Option String),
      argv.length < 3 → main argv fs = ⟨usageLines, [], 1⟩) ∧
    (∀ (argv : List String) (extra : String) (fs : String → Option String),
      3 ≤ argv.length → main (argv ++ [extra]) fs = main argv fs) := by
  constructor
  · intro argv fs h
    simp only [main, if_pos h]
  · intro argv extra fs h
    have hg1 : (argv ++ [extra]).getD 1 "" = argv.getD 1 "" :=
      List.getD_append _ _ _ _ (by omega)
    have hg2 : (argv ++ [extra]).getD 2 "" = argv.getD 2 "" :=
      List.getD_append _ _ _ _ (by omega)
    have hlen : (argv ++ [extra]).length = argv.length + 1 := by
      rw [List.length_append]
      rfl
    simp only [main, hlen, hg1, hg2]
    rw [if_neg (by omega), if_neg (by omega)]

/-- C9 witness: invoking with zero positional arguments prints usage and
exits 1, and appending a junk argument to a complete invocation changes
nothing. -/
theorem C9_witness :
    main ["extract_constructor_args.py"] (fun _ => none) = ⟨usageLines, [], 1⟩ ∧
    main (["extract_constructor_args.py", "deadbeef", "0.8.29"] ++ ["junk"]) (fun _ => none)
      = main ["extract_constructor_args.py", "deadbeef", "0.8.29"] (fun _ => none) :=
  ⟨C9_usage.1 ["extract_constructor_args.py"] (fun _ => none) (by decide),
    C9_usage.2 ["extract_constructor_args.py", "deadbeef", "0.8.29"] "junk" (fun _ => none)
      (by decide)⟩

/-! ### Normalization lemmas for claim C5 -/

theorem toNat_ofNat_valid (n : Nat) (h : n < 55296) : (Char.ofNat n).toNat = n := by
  have hv : n.isValidChar := Or.inl h
  unfold Char.ofNat
  rw [dif_pos hv]
  rfl

theorem pyIsSpace_pyToLower (c : Char) : pyIsSpace (pyToLower c) = pyIsSpace c := by
  unfold pyToLower
  split
  · next h =>
    have ht : (Char.ofNat (c.toNat + 32)).toNat = c.toNat + 32 :=
      toNat_ofNat_valid _ (by omega)
    unfold pyIsSpace
    rw [ht, decide_eq_decide]
    omega
  · rfl

theorem caseEquiv_isSpace {c1 c2 : Char} (h : pyToLower c1 = pyToLower c2) :
    pyIsSpace c1 = pyIsSpace c2 := by
  rw [← pyIsSpace_pyToLower c1, ← pyIsSpace_pyToLower c2, h]

theorem CaseEquiv.dropWhileSpace {l1 l2 : List Char} (h : CaseEquiv l1 l2) :
    CaseEquiv (l1.dropWhile pyIsSpace) (l2.dropWhile pyIsSpace) := by
  induction h with
  | nil => exact List.Forall₂.nil
  | @cons a b t1 t2 hab htl ih =>
    rw [List.dropWhile_cons, List.dropWhile_cons, caseEquiv_isSpace hab]
    by_cases hsp : pyIsSpace b = true
    · rw [if_pos hsp, if_pos hsp]
      exact ih
    · rw [if_neg hsp, if_neg hsp]
      exact List.Forall₂.cons hab htl

theorem CaseEquiv.pyStripEquiv {l1 l2 : List Char} (h : CaseEquiv l1 l2) :
    CaseEquiv (pyStrip l1) (pyStrip l2) :=
  List.rel_reverse (CaseEquiv.dropWhileSpace (List.rel_reverse (CaseEquiv.dropWhileSpace h)))

theorem CaseEquiv.pyLower_eq {l1 l2 : List Char} (h : CaseEquiv l1 l2) :
    pyLower l1 = pyLower l2 := by
  induction h with
  | nil => rfl
  | @cons a b t1 t2 hab htl ih =>
    simp only [pyLower, List.map_cons]
    simp only [pyLower] at ih
    rw [hab, ih]

theorem pyNorm_caseEquiv {d1 d2 : String} (h : CaseEquiv d1.data d2.data) :
    pyNorm d1 = pyNorm d2 := by
  have hl : pyLower (pyStrip d1.data) = pyLower (pyStrip d2.data) :=
    CaseEquiv.pyLower_eq (CaseEquiv.pyStripEquiv h)
  unfold pyNorm
  rw [hl]

theorem dropWhile_eq_nil_of_all {ws : List Char} (h : ∀ c ∈ ws, pyIsSpace c = true) :
    ws.dropWhile pyIsSpace = [] := by
  induction ws with
  | nil => rfl
  | cons a t ih =>
    rw [List.dropWhile_cons, if_pos (h a (by simp))]
    exact ih (fun c hc => h c (by simp [hc]))

theorem pyStrip_surround {ws1 ws2 l : List Char}
    (h1 : ∀ c ∈ ws1, pyIsSpace c = true) (h2 : ∀ c ∈ ws2, pyIsSpace c = true) :
    pyStrip (ws1 ++ (l ++ ws2)) = pyStrip l := by
  unfold pyStrip
  rw [List.dropWhile_append_of_pos h1, List.dropWhile_append]
  by_cases he : (l.dropWhile pyIsSpace).isEmpty = true
  · rw [if_pos he, dropWhile_eq_nil_of_all h2]
    have hl : l.dropWhile pyIsSpace = [] := by
      cases hd : l.dropWhile pyIsSpace
      · rfl
      · rw [hd] at he
        cases he
    rw [hl]
  · rw [if_neg he, List.reverse_append,
      List.dropWhile_append_of_pos (fun c hc => h2 c (List.mem_reverse.mp hc))]

theorem pyStrip_cons0x {l : List Char}
    (hr : l.reverse.dropWhile pyIsSpace = l.reverse) :
    pyStrip ('0' :: 'x' :: l) = '0' :: 'x' :: l := by
  unfold pyStrip
  rw [List.dropWhile_cons, if_neg (by decide)]
  rw [(by simp : ('0' :: 'x' :: l).reverse = l.reverse ++ ['x', '0'])]
  rw [List.dropWhile_append]
  by_cases he : (l.reverse.dropWhile pyIsSpace).isEmpty = true
  · rw [if_pos he]
    rw [hr] at he
    have hrev : l.reverse = [] := by
      cases hd : l.reverse
      · rfl
      · rw [hd] at he
        cases he
    have hl : l = [] := by
      have := congrArg List.reverse hrev
      simpa using this
    subst hl
    decide
  · rw [if_neg he, hr, List.reverse_append]
    simp

theorem pyStrip_of_trimmed {l : List Char}
    (hl : l.dropWhile pyIsSpace = l) (hr : l.reverse.dropWhile pyIsSpace = l.reverse) :
    pyStrip l = l := by
  unfold pyStrip
  rw [hl, hr, List.reverse_reverse]

theorem pyNorm_cons0x {l : List Char}
    (hl : l.dropWhile pyIsSpace = l) (hr : l.reverse.dropWhile pyIsSpace = l.reverse)
    (hpre : ['0', 'x'].isPrefixOf (pyLower l) = false) :
    pyNorm (String.mk ('0' :: 'x' :: l)) = pyNorm (String.mk l) := by
  unfold pyNorm
  have hd1 : (String.mk ('0' :: 'x' :: l)).data = '0' :: 'x' :: l := rfl
  have hd2 : (String.mk l).data = l := rfl
  rw [hd1, hd2, pyStrip_cons0x hr, pyStrip_of_trimmed hl hr]
  have hlow : pyLower ('0' :: 'x' :: l) = '0' :: 'x' :: pyLower l := by
    simp only [pyLower, List.map_cons]
    rw [(by decide : pyToLower '0' = '0'), (by decide : pyToLower 'x' = 'x')]
  rw [hlow]
  rw [if_pos (by simp [List.isPrefixOf]),
    if_neg (fun hcon => Bool.noConfusion (hpre.symm.trans hcon))]
  rfl

/-! ### Claim C5 -/

/-- C5 counterexample: adding a leading `"0x"` to the blob `"0xabc"` (which
already carries a `0x` prefix) changes the extraction result for the pattern
`"0xa"` from `none` to `some "0xbc"`, so extraction is not invariant under
adding a leading `0x` prefix to an arbitrary blob. -/
theorem C5_counterexample :
    extract_constructor_args "0xabc" "0xa" = none ∧
    extract_constructor_args ("0x" ++ "0xabc") "0xa" = some "0xbc" := by
  constructor
  · decide
  · decide

/-- C5 (amended): the extraction result is unchanged when the blob's
characters change letter case, when surrounding whitespace is added or
removed, and when a leading `0x` is added to (or removed from) a trimmed
blob that does not otherwise begin with `0x`.  Adding `0x` to a blob already
beginning with `0x` is not invariant, since normalization strips only one
prefix. -/
theorem C5_normalization (pat : String) :
    (∀ l1 l2 : List Char, CaseEquiv l1 l2 →
      extract_constructor_args (String.mk l1) pat = extract_constructor_args (String.mk l2) pat) ∧
    (∀ ws1 ws2 l : List Char,
      (∀ c ∈ ws1, pyIsSpace c = true) → (∀ c ∈ ws2, pyIsSpace c = true) →
      extract_constructor_args (String.mk (ws1 ++ (l ++ ws2))) pat =
        extract_constructor_args (String.mk l) pat) ∧
    (∀ l : List Char,
      l.dropWhile pyIsSpace = l → l.reverse.dropWhile pyIsSpace = l.reverse →
      ['0', 'x'].isPrefixOf (pyLower l) = false →
      extract_constructor_args (String.mk ('0' :: 'x' :: l)) pat =
        extract_constructor_args (String.mk l) pat) := by
  refine ⟨fun l1 l2 h => extract_eq_of_pyNorm_eq pat (pyNorm_caseEquiv h),
    fun ws1 ws2 l h1 h2 => extract_eq_of_pyNorm_eq pat ?_,
    fun l hl hr hpre => extract_eq_of_pyNorm_eq pat (pyNorm_cons0x hl hr hpre)⟩
  unfold pyNorm
  have hd : (String.mk (ws1 ++ (l ++ ws2))).data = ws1 ++ (l ++ ws2) := rfl
  have hd2 : (String.mk l).data = l := rfl
  rw [hd, hd2, pyStrip_surround h1 h2]

/-- C5 witness: a case change, surrounding whitespace, and a fresh leading
`0x` each leave a concrete extraction unchanged. -/
theorem C5_witness :
    (CaseEquiv ("aB".data) ("Ab".data) ∧
      extract_constructor_args (String.mk ("aB".data)) "a" =
        extract_constructor_args (String.mk ("Ab".data)) "a") ∧
    extract_constructor_args (String.mk ([' '] ++ ("abc".data ++ ['\n']))) "b" =
      extract_constructor_args (String.mk ("abc".data)) "b" ∧
    extract_constructor_args (String.mk ('0' :: 'x' :: "abc".data)) "b" =
      extract_constructor_args (String.mk ("abc".data)) "b" :=
  have hce : CaseEquiv ("aB".data) ("Ab".data) :=
    List.Forall₂.cons (by decide) (List.Forall₂.cons (by decide) List.Forall₂.nil)
  ⟨⟨hce, (C5_normalization "a").1 _ _ hce⟩,
    (C5_normalization "b").2.1 [' '] ['\n'] ("abc".data) (by decide) (by decide),
    (C5_normalization "b").2.2 ("abc".data) (by decide) (by decide) (by decide)⟩

end ExtractConstructorArgs
